import Mathlib

set_option maxHeartbeats 1000000
set_option maxRecDepth 100000

/-!
Verification of the Q&A dataset generation script
(`GenerateQuestionsFromPDFsv3.py`).

The script extracts text from PDF files, chunks it with a sliding
character window, feeds the chunks to an external question-generation
model, and writes the collected (question, answer) pairs to a JSON file.

The embedding below models:
  - `pySlice`             : Python list/string slicing `text[a:b]`;
  - `prelimLoop`          : the while-loop of `preliminary_split_text`
                            (fuel-indexed, since the loop need not terminate);
  - `preliminary_split_text`, `split_text_into_smaller_chunks`;
  - `Tokenizer`, `QGModel`: the external tokenizer / generation model,
                            as abstract interfaces;
  - `generate_qas_loop`   : the per-chunk loop of `generate_qas`;
  - `PyVal`               : the dynamically typed values the generator
                            returns (strings, tuples, lists);
  - `buildRecords`, `modified_qas`, `save_qas_to_json`: the dataset writer,
    with the output file system modeled as a map from file names to the
    record list stored in them;
  - `run_writer`          : one writer invocation per document, as done by
                            `main`;
  - `extract_text_from_pdfs`: the PDF text extractor over an abstract
    directory listing (file name, page texts).
-/

namespace GenerateQA

/-- Python slice `text[a:b]` on a list of characters: negative indices
count from the end and indices are clamped to the valid range. -/
def pySlice (text : List Char) (a b : Int) : List Char :=
  let n : Int := text.length
  let a0 : Int := if a < 0 then max 0 (n + a) else min a n
  let b0 : Int := if b < 0 then max 0 (n + b) else min b n
  (text.take b0.toNat).drop a0.toNat

/-- The while-loop of `preliminary_split_text`, indexed by fuel so that a
non-terminating loop (which Python allows when `max_length - overlap ≤ 0`)
is represented by `none` for every fuel value.  One fuel unit is spent per
loop-condition check. -/
def prelimLoop : Nat → List Char → Int → Int → Int → List (List Char) → Option (List (List Char))
  | 0, _, _, _, _, _ => none
  | fuel + 1, text, max_length, overlap, current_start, chunks =>
    if current_start < (text.length : Int) then
      prelimLoop fuel text max_length overlap (current_start + (max_length - overlap))
        (chunks ++ [pySlice text current_start (min (current_start + max_length) (text.length : Int))])
    else
      some chunks

/-- `preliminary_split_text(text, max_length=512, overlap=128)`: splits
`text` into sliding character windows.  `text.length + 1` fuel is enough
for every terminating run of the Python loop (the start index advances by
at least one per iteration when `overlap < max_length`). -/
def preliminary_split_text (text : List Char) (max_length overlap : Int) : Option (List (List Char)) :=
  prelimLoop (text.length + 1) text max_length overlap 0 []

/-- The external tokenizer interface: `tokenize` and
`convert_tokens_to_string`. -/
structure Tokenizer where
  tokenize : List Char → List String
  convert_tokens_to_string : List String → List Char

/-- The per-chunk loop of `split_text_into_smaller_chunks`: tokenize each
preliminary chunk, raise `ValueError` ("Token count exceeds the maximum
allowed length.") if the token count exceeds `max_length`, otherwise
append the reconstituted chunk. -/
def split_loop (tokenizer : Tokenizer) (max_length : Int) : List (List Char) → Except String (List (List Char))
  | [] => .ok []
  | pre_chunk :: rest =>
    let tokens := tokenizer.tokenize pre_chunk
    if max_length < (tokens.length : Int) then
      .error "Token count exceeds the maximum allowed length."
    else
      match split_loop tokenizer max_length rest with
      | .error e => .error e
      | .ok tail => .ok (tokenizer.convert_tokens_to_string tokens :: tail)

/-- `split_text_into_smaller_chunks(text, tokenizer, max_length=512,
overlap=128)`: preliminary character split followed by the per-chunk
tokenize / length-check / reconstitute loop. -/
def split_text_into_smaller_chunks (text : List Char) (tokenizer : Tokenizer)
    (max_length overlap : Int) : Option (Except String (List (List Char))) :=
  (preliminary_split_text text max_length overlap).map (split_loop tokenizer max_length)

/-- Dynamically typed Python values as they appear in the generator's
output: strings, tuples and lists. -/
inductive PyVal where
  | str : String → PyVal
  | tup : List PyVal → PyVal
  | lst : List PyVal → PyVal

/-- Python iteration over a value: a list or tuple yields its elements, a
string yields its characters as one-character strings. -/
def pyIter : PyVal → List PyVal
  | .str s => s.data.map (fun c => PyVal.str (String.singleton c))
  | .tup vs => vs
  | .lst vs => vs

/-- A persisted record of the output dataset:
`{"Reference": ..., "Question": ..., "Answer": ...}`. -/
structure QARecord where
  Reference : String
  Question : String
  Answer : String
deriving DecidableEq

/-- `os.path.basename`: the part of the path after the last path
separator (`/` or `\`). -/
def afterLastSep (cs : List Char) : List Char :=
  cs.foldl (fun acc c => if c = '/' ∨ c = '\\' then [] else acc ++ [c]) []

/-- The root part of `os.path.splitext` on a separator-free name: drop
the suffix from the last dot on, unless every character before that dot
is itself a dot (so a leading-dot name keeps its dots). -/
def splitext_root (cs : List Char) : List Char :=
  match (((List.range cs.length).filter (fun i => cs.get? i == some '.')).reverse).find?
      (fun i => (List.range i).any (fun j => !(cs.get? j == some '.'))) with
  | some i => cs.take i
  | none => cs

/-- `os.path.splitext(os.path.basename(pdf_file_path))[0]` as computed at
the top of `save_qas_to_json`. -/
def pdf_file_name (pdf_file_path : String) : String :=
  String.mk (splitext_root (afterLastSep pdf_file_path.data))

/-- The record built from one well-formed generator item: a 2-tuple of
strings becomes a `QARecord` with the literal prefixes `"Question: "` and
`"Answer: "`; anything else yields no record. -/
def toRecord (name : String) : PyVal → Option QARecord
  | .tup [.str q, .str a] => some ⟨name, "Question: " ++ q, "Answer: " ++ a⟩
  | _ => none

/-- The inner record-building loop of `save_qas_to_json` over the already
flattened item sequence: a 2-tuple of strings is stored; a 2-tuple whose
components are not both strings hits Python's `TypeError` on string
concatenation (modeled as an error); any other shape is reported as
"Invalid QA format" and skipped. -/
def buildRecords (name : String) : List PyVal → Except String (List QARecord)
  | [] => .ok []
  | .tup [.str q, .str a] :: rest =>
    match buildRecords name rest with
    | .error e => .error e
    | .ok tail => .ok (⟨name, "Question: " ++ q, "Answer: " ++ a⟩ :: tail)
  | .tup [_, _] :: _ => .error "TypeError: can only concatenate str"
  | _ :: rest => buildRecords name rest

/-- The `modified_qas` list of `save_qas_to_json`: the nested loop
`for qa_list in qas: for qa in qa_list: ...` builds records from the
concatenation of the iterations of the outer elements. -/
def modified_qas (name : String) (qas : List PyVal) : Except String (List QARecord) :=
  buildRecords name (qas.flatMap pyIter)

/-- `save_qas_to_json(qas, output_file, pdf_file_path)`: builds the
records and rewrites `output_file` with exactly those records (the file is
opened in mode "w", truncating whatever was there).  The file system is a
map from file names to the stored record list. -/
def save_qas_to_json (qas : List PyVal) (output_file : String) (pdf_file_path : String)
    (fs : String → Option (List QARecord)) : Except String (String → Option (List QARecord)) :=
  match modified_qas (pdf_file_name pdf_file_path) qas with
  | .error e => .error e
  | .ok recs => .ok (fun f => if f = output_file then some recs else fs f)

/-- One writer invocation per document, as `main` does: each document
contributes its `qas` value and its PDF path, and every call writes the
same `output_file`. -/
def run_writer : List (List PyVal × String) → String → (String → Option (List QARecord)) →
    Except String (String → Option (List QARecord))
  | [], _, fs => .ok fs
  | (qas, path) :: rest, output_file, fs =>
    match save_qas_to_json qas output_file path fs with
    | .error e => .error e
    | .ok fs1 => run_writer rest output_file fs1

/-- Exceptions the generation model can raise: the designated
`AnswerNotFoundError`, or any other exception. -/
inductive GenError where
  | answerNotFound : String → GenError
  | other : String → GenError

/-- The external question-generation model: `generate_qa` takes a list of
texts and returns generated items or raises. -/
structure QGModel where
  generate_qa : List (List Char) → Except GenError (List PyVal)

/-- Errors that abort `generate_qas` for a document. -/
inductive RunError where
  | genFailure : String → RunError
deriving DecidableEq

/-- Whether a model result is a failure other than `AnswerNotFoundError`. -/
def isOtherFailure : Except GenError (List PyVal) → Bool
  | .error (.other _) => true
  | _ => false

/-- The per-chunk loop of `generate_qas`: each part is passed to
`model.generate_qa([part])`; on success the returned items extend the
collected list, an `AnswerNotFoundError` is caught and the part skipped,
and any other exception propagates and aborts the document. -/
def generate_qas_loop (model : QGModel) : List (List Char) → Except RunError (List PyVal)
  | [] => .ok []
  | part :: rest =>
    match model.generate_qa [part] with
    | .ok qa_part =>
      match generate_qas_loop model rest with
      | .error e => .error e
      | .ok tail => .ok (qa_part ++ tail)
    | .error (.answerNotFound _) => generate_qas_loop model rest
    | .error (.other msg) => .error (.genFailure msg)

/-- Python's `str.endswith`: a character-level suffix test. -/
def endswith (s : String) (suffix : String) : Bool :=
  suffix.data.isSuffixOf s.data

/-- The loop body of `extract_text_from_pdfs`, with the running
`file_count`.  A directory is its listing: (file name, page texts) in
order.  For each `.pdf` entry (unless the cap is reached, `break`) the
page texts are concatenated with no separator and appended, followed by a
separate `"\n\n"` entry. -/
def extract_go (max_files : Nat) : List (String × List String) → Nat → List String
  | [], _ => []
  | (filename, pages) :: rest, file_count =>
    if endswith filename ".pdf" then
      if max_files ≠ 0 ∧ max_files ≤ file_count then []
      else String.join pages :: "\n\n" :: extract_go max_files rest (file_count + 1)
    else extract_go max_files rest file_count

/-- `extract_text_from_pdfs(folder_path, max_files)`: the texts list
built from a directory listing. -/
def extract_text_from_pdfs (dir : List (String × List String)) (max_files : Nat) : List String :=
  extract_go max_files dir 0

/-- A sample tokenizer for concrete runs: one token per character,
reconstitution by concatenation (an exact round trip). -/
def sampleTokenizer : Tokenizer where
  tokenize := fun cs => cs.map (fun c => String.singleton c)
  convert_tokens_to_string := fun ts => (String.join ts).data

/-- A sample tokenizer producing two tokens per character, used to
exercise the token-overflow branch. -/
def dupTokenizer : Tokenizer where
  tokenize := fun cs => cs.map (fun c => String.singleton c) ++ cs.map (fun c => String.singleton c)
  convert_tokens_to_string := fun ts => (String.join ts).data

/-- A sample generation model for concrete runs: raises
`AnswerNotFoundError` on the text "skip", some other exception on the
text "boom", and otherwise returns one item holding one (Q, A) pair. -/
def sampleModel : QGModel where
  generate_qa := fun texts =>
    if texts = ["skip".data] then .error (.answerNotFound "no answer")
    else if texts = ["boom".data] then .error (.other "fail")
    else .ok [PyVal.lst [PyVal.tup [PyVal.str "Q", PyVal.str "A"]]]

end GenerateQA

namespace GenerateQA

/-- C9 helper: enough fuel makes `prelimLoop` terminate when the window
step `max_length - overlap` is positive. -/
theorem prelimLoop_isSome_of_le (text : List Char) (max_length overlap : Int) :
    ∀ (fuel : Nat) (start : Int) (acc : List (List Char)),
      0 < max_length - overlap → (text.length : Int) ≤ start + fuel →
      (prelimLoop (fuel + 1) text max_length overlap start acc).isSome := by
  intro fuel
  induction fuel with
  | zero =>
    intro start acc _ hle
    simp only [prelimLoop]
    rw [if_neg (by push_cast at hle; omega)]
    simp
  | succ n ih =>
    intro start acc hstep hle
    simp only [prelimLoop]
    by_cases h : start < (text.length : Int)
    · rw [if_pos h]
      exact ih _ _ hstep (by push_cast at hle ⊢; omega)
    · rw [if_neg h]
      simp

/-- Divergence helper: with a non-positive step and a non-empty text the
loop never terminates, whatever the fuel. -/
theorem prelimLoop_none_of_nonpos_step (text : List Char) (max_length overlap : Int)
    (hstep : max_length - overlap ≤ 0) (hne : text ≠ []) :
    ∀ (fuel : Nat) (start : Int), start ≤ 0 → ∀ acc : List (List Char),
      prelimLoop fuel text max_length overlap start acc = none := by
  intro fuel
  induction fuel with
  | zero => intro start _ acc; rfl
  | succ n ih =>
    intro start hstart acc
    have hlen : 0 < (text.length : Int) := by
      have : text.length ≠ 0 := fun h => hne (List.eq_nil_of_length_eq_zero h)
      omega
    simp only [prelimLoop]
    rw [if_pos (by omega)]
    exact ih _ (by omega) _

/-- C10: `preliminary_split_text` terminates for every text whenever
`overlap < max_length` (the window start strictly increases each
iteration); conversely, for `max_length ≤ overlap` and a non-empty text
the loop never finishes, for any amount of fuel. -/
theorem preliminary_split_text_termination (text : List Char) (max_length overlap : Int) :
    (overlap < max_length → (preliminary_split_text text max_length overlap).isSome) ∧
    (max_length ≤ overlap → text ≠ [] →
      ∀ (fuel : Nat) (acc : List (List Char)),
        prelimLoop fuel text max_length overlap 0 acc = none) := by
  constructor
  · intro h
    unfold preliminary_split_text
    exact prelimLoop_isSome_of_le text _ _ text.length 0 [] (by omega) (by omega)
  · intro h hne fuel acc
    exact prelimLoop_none_of_nonpos_step text _ _ (by omega) hne fuel 0 le_rfl acc

/-- C10 witness: termination at `overlap = 1 < 2 = max_length` on "ab",
divergence at `overlap = 2 ≥ 1 = max_length` on "ab". -/
theorem preliminary_split_text_termination_witness :
    (preliminary_split_text ("ab".data) 2 1).isSome ∧
    prelimLoop 5 ("ab".data) 1 2 0 [] = none := by
  constructor
  · exact (preliminary_split_text_termination ("ab".data) 2 1).1 (by decide)
  · exact (preliminary_split_text_termination ("ab".data) 1 2).2 (by decide) (by decide) 5 []

/-- Length of a slice with non-negative bounds. -/
theorem pySlice_length (text : List Char) (a b : Int) (ha : 0 ≤ a) (hb : 0 ≤ b) :
    (pySlice text a b).length =
      (min b (text.length : Int)).toNat - (min a (text.length : Int)).toNat := by
  simp only [pySlice]
  rw [if_neg (by omega), if_neg (by omega)]
  simp only [List.length_drop, List.length_take]
  omega

/-- Element access inside a slice with non-negative bounds. -/
theorem pySlice_getElem? (text : List Char) (a b : Int) (ha : 0 ≤ a) (hb : 0 ≤ b) (j : Nat)
    (hj : a + (j : Int) < min b (text.length : Int)) :
    (pySlice text a b)[j]? = text[a.toNat + j]? := by
  simp only [pySlice]
  rw [if_neg (by omega), if_neg (by omega)]
  rw [List.getElem?_drop, List.getElem?_take_of_lt (by omega)]
  congr 1
  omega

/-- A window `text[s : min (s + max_length) len]` holds at most
`max_length` characters. -/
theorem pySlice_window_length (text : List Char) (s max_length : Int)
    (hs : 0 ≤ s) (hm : 0 ≤ max_length) :
    (pySlice text s (min (s + max_length) (text.length : Int))).length ≤ max_length.toNat := by
  rw [pySlice_length text _ _ hs (by omega)]
  omega

/-- A window `text[s : min (s + max_length) len]` reproduces the text
character at every covered index. -/
theorem pySlice_window_getElem? (text : List Char) (s max_length : Int) (i : Nat)
    (hs : 0 ≤ s) (h1 : s ≤ (i : Int)) (h2 : (i : Int) < s + max_length) (h3 : i < text.length) :
    (pySlice text s (min (s + max_length) (text.length : Int)))[(i - s.toNat : Nat)]? = text[i]? := by
  rw [pySlice_getElem? text s (min (s + max_length) (text.length : Int)) hs (by omega)
    (i - s.toNat) (by omega)]
  congr 1
  omega

/-- The workhorse description of the chunking loop: from any admissible
start, with `0 ≤ overlap` and a positive step, `prelimLoop` returns the
accumulated chunks followed by windows that begin at `start`, advance by
`max_length - overlap` and stay below the text length, and those windows
jointly cover every index from `start` up to the end of the text. -/
theorem prelimLoop_spec (text : List Char) (max_length overlap : Int)
    (hov : 0 ≤ overlap) (hstep : 0 < max_length - overlap) :
    ∀ (fuel : Nat) (start : Int) (acc : List (List Char)),
      0 ≤ start → (text.length : Int) ≤ start + fuel →
      ∃ chunks,
        prelimLoop (fuel + 1) text max_length overlap start acc = some (acc ++ chunks) ∧
        (∀ (k : Nat) (hk : k < chunks.length),
          chunks.get ⟨k, hk⟩ =
            pySlice text (start + k * (max_length - overlap))
              (min (start + k * (max_length - overlap) + max_length) (text.length : Int)) ∧
          start + k * (max_length - overlap) < (text.length : Int)) ∧
        (∀ i : Nat, start ≤ (i : Int) → i < text.length →
          ∃ k : Nat, k < chunks.length ∧
            start + k * (max_length - overlap) ≤ (i : Int) ∧
            (i : Int) < start + k * (max_length - overlap) + max_length) := by
  intro fuel
  induction fuel with
  | zero =>
    intro start acc hstart hle
    refine ⟨[], ?_, ?_, ?_⟩
    · simp only [prelimLoop]
      rw [if_neg (by push_cast at hle; omega)]
      simp
    · intro k hk
      simp at hk
    · intro i hi1 hi2
      exfalso
      push_cast at hle
      omega
  | succ n ih =>
    intro start acc hstart hle
    by_cases h : start < (text.length : Int)
    · obtain ⟨chunks', h1, h2, h3⟩ :=
        ih (start + (max_length - overlap))
          (acc ++ [pySlice text start (min (start + max_length) (text.length : Int))])
          (by omega) (by push_cast at hle ⊢; omega)
      refine ⟨pySlice text start (min (start + max_length) (text.length : Int)) :: chunks',
        ?_, ?_, ?_⟩
      · rw [prelimLoop]
        rw [if_pos h, h1]
        simp
      · intro k hk
        match k with
        | 0 =>
          refine ⟨?_, ?_⟩
          · show pySlice text start (min (start + max_length) (text.length : Int)) = _
            simp only [Nat.cast_zero, zero_mul, add_zero]
          · simp only [Nat.cast_zero, zero_mul, add_zero]
            exact h
        | k + 1 =>
          have hk' : k < chunks'.length := by simpa using hk
          obtain ⟨e1, e2⟩ := h2 k hk'
          have e3 : start + (max_length - overlap) + (k : Int) * (max_length - overlap) =
              start + ((k : Int) + 1) * (max_length - overlap) := by ring
          refine ⟨?_, ?_⟩
          · show chunks'.get ⟨k, hk'⟩ = _
            rw [e1, e3]
            push_cast
            rfl
          · rw [e3] at e2
            push_cast
            exact e2
      · intro i hi1 hi2
        by_cases hc : (i : Int) < start + (max_length - overlap)
        · refine ⟨0, by simp, ?_, ?_⟩
          · simp only [Nat.cast_zero, zero_mul, add_zero]
            exact hi1
          · simp only [Nat.cast_zero, zero_mul, add_zero]
            omega
        · obtain ⟨k, hk, b1, b2⟩ := h3 i (by omega) hi2
          have e3 : start + (max_length - overlap) + (k : Int) * (max_length - overlap) =
              start + ((k : Int) + 1) * (max_length - overlap) := by ring
          rw [e3] at b1 b2
          refine ⟨k + 1, by simpa using hk, ?_, ?_⟩
          · push_cast
            exact b1
          · push_cast
            exact b2
    · refine ⟨[], ?_, ?_, ?_⟩
      · simp only [prelimLoop]
        rw [if_neg h]
        simp
      · intro k hk
        simp at hk
      · intro i hi1 hi2
        exfalso
        omega

/-- C8 (amended: `overlap` additionally non-negative, as any valid
parameter pair has it): `preliminary_split_text` produces windows that
start at offset 0 and advance by `max_length - overlap` per step while
the window start stays below the text length; each window is at most
`max_length` characters; and the windows cover every character of the
text at its own position. -/
theorem preliminary_split_text_windows (text : List Char) (max_length overlap : Int)
    (hov : 0 ≤ overlap) (hlt : overlap < max_length) :
    ∃ chunks, preliminary_split_text text max_length overlap = some chunks ∧
      (∀ (k : Nat) (hk : k < chunks.length),
        chunks.get ⟨k, hk⟩ =
          pySlice text ((k : Int) * (max_length - overlap))
            (min ((k : Int) * (max_length - overlap) + max_length) (text.length : Int)) ∧
        (k : Int) * (max_length - overlap) < (text.length : Int) ∧
        (chunks.get ⟨k, hk⟩).length ≤ max_length.toNat) ∧
      (∀ i : Nat, i < text.length →
        ∃ (k : Nat) (hk : k < chunks.length),
          (k : Int) * (max_length - overlap) ≤ (i : Int) ∧
          (i : Int) < (k : Int) * (max_length - overlap) + max_length ∧
          (chunks.get ⟨k, hk⟩)[(i - ((k : Int) * (max_length - overlap)).toNat : Nat)]? =
            text[i]?) := by
  obtain ⟨chunks, h1, h2, h3⟩ :=
    prelimLoop_spec text max_length overlap hov (by omega) text.length 0 [] le_rfl (by omega)
  refine ⟨chunks, ?_, ?_, ?_⟩
  · unfold preliminary_split_text
    rw [h1]
    simp
  · intro k hk
    have hs0 : 0 ≤ (k : Int) * (max_length - overlap) :=
      mul_nonneg (Int.natCast_nonneg k) (by omega)
    obtain ⟨e1, e2⟩ := h2 k hk
    simp only [zero_add] at e1 e2
    refine ⟨e1, e2, ?_⟩
    rw [e1]
    exact pySlice_window_length text _ max_length hs0 (by omega)
  · intro i hi
    obtain ⟨k, hk, b1, b2⟩ := h3 i (by omega) hi
    simp only [zero_add] at b1 b2
    have hs0 : 0 ≤ (k : Int) * (max_length - overlap) :=
      mul_nonneg (Int.natCast_nonneg k) (by omega)
    obtain ⟨e1, _⟩ := h2 k hk
    simp only [zero_add] at e1
    refine ⟨k, hk, b1, b2, ?_⟩
    rw [e1]
    exact pySlice_window_getElem? text _ max_length i hs0 b1 b2 hi

/-- C8 witness: concrete run on "abcde" with `max_length = 4`,
`overlap = 1`. -/
theorem preliminary_split_text_windows_witness :
    ∃ chunks, preliminary_split_text ("abcde".data) 4 1 = some chunks ∧
      (∀ (k : Nat) (hk : k < chunks.length),
        chunks.get ⟨k, hk⟩ =
          pySlice ("abcde".data) ((k : Int) * (4 - 1))
            (min ((k : Int) * (4 - 1) + 4) (("abcde".data).length : Int)) ∧
        (k : Int) * (4 - 1) < (("abcde".data).length : Int) ∧
        (chunks.get ⟨k, hk⟩).length ≤ (4 : Int).toNat) ∧
      (∀ i : Nat, i < ("abcde".data).length →
        ∃ (k : Nat) (hk : k < chunks.length),
          (k : Int) * (4 - 1) ≤ (i : Int) ∧
          (i : Int) < (k : Int) * (4 - 1) + 4 ∧
          (chunks.get ⟨k, hk⟩)[(i - ((k : Int) * (4 - 1)).toNat : Nat)]? =
            ("abcde".data)[i]?) :=
  preliminary_split_text_windows ("abcde".data) 4 1 (by decide) (by decide)

/-- C8 counterexample: `overlap` is only required to satisfy
`overlap < max_length` by the claim, but with `max_length = 2` and
`overlap = -600` the start advances by 602 per step, so on "abcd" the
only window produced is "ab" and the character at index 2 appears in no
window: the windows do not cover every character. -/
theorem preliminary_split_text_windows_counterexample :
    preliminary_split_text ("abcd".data) 2 (-600) = some ["ab".data] ∧
    ¬ ∃ cs, preliminary_split_text ("abcd".data) 2 (-600) = some cs ∧
        ∀ i, i < ("abcd".data).length →
          ∃ w, w ∈ cs ∧ ∃ j, j < w.length ∧ w[j]? = ("abcd".data)[i]? := by
  constructor
  · decide
  · rintro ⟨cs, hcs, hcov⟩
    rw [show preliminary_split_text ("abcd".data) 2 (-600) = some ["ab".data] from by decide]
      at hcs
    obtain rfl := Option.some.inj hcs
    obtain ⟨w, hw, j, hj, hcj⟩ := hcov 2 (by decide)
    rw [List.mem_singleton] at hw
    subst hw
    have hj2 : j < 2 := hj
    interval_cases j
    · exact absurd hcj (by decide)
    · exact absurd hcj (by decide)

/-- Cutting a full-length window from position 0 returns the whole text. -/
theorem pySlice_zero_of_le (text : List Char) (b : Int) (hb : (text.length : Int) ≤ b) :
    pySlice text 0 b = text := by
  simp only [pySlice]
  rw [if_neg (by omega), if_neg (by omega)]
  have h1 : min (0 : Int) (text.length : Int) = 0 := by omega
  have h2 : min b (text.length : Int) = (text.length : Int) := by omega
  rw [h1, h2]
  simp

/-- C3 (amended: the text must be non-empty and no longer than
`max_length - overlap`, the window step): such a text yields exactly one
chunk, the token-reconstitution of the whole text, provided its token
count fits the budget. -/
theorem split_short_text_single_chunk (text : List Char) (tokenizer : Tokenizer)
    (max_length overlap : Int) (hov : 0 ≤ overlap) (hlt : overlap < max_length)
    (hne : 0 < text.length) (hshort : (text.length : Int) ≤ max_length - overlap)
    (htok : ((tokenizer.tokenize text).length : Int) ≤ max_length) :
    preliminary_split_text text max_length overlap = some [text] ∧
    split_text_into_smaller_chunks text tokenizer max_length overlap =
      some (.ok [tokenizer.convert_tokens_to_string (tokenizer.tokenize text)]) := by
  have hpre : preliminary_split_text text max_length overlap = some [text] := by
    obtain ⟨m, hm⟩ : ∃ m, text.length = m + 1 := ⟨text.length - 1, by omega⟩
    unfold preliminary_split_text
    rw [hm]
    show prelimLoop (m + 1 + 1) text max_length overlap 0 [] = some [text]
    simp only [prelimLoop, zero_add, List.nil_append]
    rw [if_pos (by omega), if_neg (by omega),
      min_eq_right (show (text.length : Int) ≤ max_length by omega),
      pySlice_zero_of_le text _ le_rfl]
  refine ⟨hpre, ?_⟩
  unfold split_text_into_smaller_chunks
  rw [hpre]
  simp only [Option.map_some', split_loop]
  rw [if_neg (by omega)]

/-- C3 witness: "hello" with the default parameters and the
one-token-per-character sample tokenizer. -/
theorem split_short_text_single_chunk_witness :
    preliminary_split_text ("hello".data) 512 128 = some ["hello".data] ∧
    split_text_into_smaller_chunks ("hello".data) sampleTokenizer 512 128 =
      some (.ok [sampleTokenizer.convert_tokens_to_string
        (sampleTokenizer.tokenize ("hello".data))]) :=
  split_short_text_single_chunk ("hello".data) sampleTokenizer 512 128 (by decide) (by decide)
    (by decide) (by decide) (by decide)

/-- C3 counterexample: the text of 400 copies of 'a' is shorter than the
default `max_length = 512`, yet the preliminary split yields two chunks
(the step is 512 - 128 = 384 < 400), not one. -/
theorem split_short_text_counterexample :
    (List.replicate 400 'a').length < 512 ∧
    (preliminary_split_text (List.replicate 400 'a') 512 128).map List.length = some 2 ∧
    (preliminary_split_text (List.replicate 400 'a') 512 128).map List.length ≠ some 1 := by
  refine ⟨by simp, rfl, ?_⟩
  intro h
  rw [show (preliminary_split_text (List.replicate 400 'a') 512 128).map List.length =
    some 2 from rfl] at h
  exact absurd (Option.some.inj h) (by omega)

/-- C9: the empty text yields zero chunks, both from the preliminary
character split and from the full chunking pipeline, for every tokenizer
and every parameter pair. -/
theorem empty_text_zero_chunks (tokenizer : Tokenizer) (max_length overlap : Int) :
    preliminary_split_text [] max_length overlap = some [] ∧
    split_text_into_smaller_chunks [] tokenizer max_length overlap = some (.ok []) := by
  constructor
  · simp [preliminary_split_text, prelimLoop]
  · simp [split_text_into_smaller_chunks, preliminary_split_text, prelimLoop, split_loop]

/-- When every preliminary chunk's token count fits the budget,
`split_loop` returns one reconstituted chunk per preliminary chunk. -/
theorem split_loop_ok (tokenizer : Tokenizer) (max_length : Int) :
    ∀ pre : List (List Char),
      (∀ c ∈ pre, ((tokenizer.tokenize c).length : Int) ≤ max_length) →
      split_loop tokenizer max_length pre =
        .ok (pre.map (fun c => tokenizer.convert_tokens_to_string (tokenizer.tokenize c))) := by
  intro pre
  induction pre with
  | nil => intro _; rfl
  | cons c rest ih =>
    intro hall
    simp only [split_loop]
    rw [if_neg (by have := hall c (by simp); omega)]
    rw [ih (fun d hd => hall d (by simp [hd]))]
    simp

/-- `split_loop` fails with the overflow message at the first chunk whose
token count exceeds the budget. -/
theorem split_loop_error (tokenizer : Tokenizer) (max_length : Int) :
    ∀ (pre1 : List (List Char)) (c : List Char) (pre2 : List (List Char)),
      (∀ d ∈ pre1, ((tokenizer.tokenize d).length : Int) ≤ max_length) →
      max_length < ((tokenizer.tokenize c).length : Int) →
      split_loop tokenizer max_length (pre1 ++ c :: pre2) =
        .error "Token count exceeds the maximum allowed length." := by
  intro pre1
  induction pre1 with
  | nil =>
    intro c pre2 _ hc
    simp only [List.nil_append, split_loop]
    rw [if_pos (by omega)]
  | cons d rest ih =>
    intro c pre2 hall hc
    simp only [List.cons_append, split_loop, List.append_eq]
    rw [if_neg (by have := hall d (by simp); omega)]
    rw [ih c pre2 (fun e he => hall e (by simp [he])) hc]

/-- C7: given the preliminary chunks of a text, the chunking pipeline
raises the overflow error exactly when some chunk re-tokenizes to more
than `max_length` tokens — failing at the first offending chunk, with no
chunks returned — and otherwise returns one reconstituted string per
preliminary chunk, each built from at most `max_length` tokens. -/
theorem split_text_overflow_behavior (text : List Char) (tokenizer : Tokenizer)
    (max_length overlap : Int) (pre : List (List Char))
    (hpre : preliminary_split_text text max_length overlap = some pre) :
    ((∀ c ∈ pre, ((tokenizer.tokenize c).length : Int) ≤ max_length) →
      split_text_into_smaller_chunks text tokenizer max_length overlap =
        some (.ok (pre.map (fun c =>
          tokenizer.convert_tokens_to_string (tokenizer.tokenize c))))) ∧
    (∀ (pre1 : List (List Char)) (c : List Char) (pre2 : List (List Char)),
      pre = pre1 ++ c :: pre2 →
      (∀ d ∈ pre1, ((tokenizer.tokenize d).length : Int) ≤ max_length) →
      max_length < ((tokenizer.tokenize c).length : Int) →
      split_text_into_smaller_chunks text tokenizer max_length overlap =
        some (.error "Token count exceeds the maximum allowed length.")) := by
  constructor
  · intro hall
    unfold split_text_into_smaller_chunks
    rw [hpre, Option.map_some', split_loop_ok tokenizer max_length pre hall]
  · intro pre1 c pre2 hsplit h1 hc
    unfold split_text_into_smaller_chunks
    rw [hpre, Option.map_some', hsplit,
      split_loop_error tokenizer max_length pre1 c pre2 h1 hc]

/-- C7 witness: a fitting run ("ab", budget 4, one token per character)
and an overflowing run ("abc", budget 2, two tokens per character, which
fails on the very first chunk). -/
theorem split_text_overflow_behavior_witness :
    split_text_into_smaller_chunks ("ab".data) sampleTokenizer 4 1 =
      some (.ok ([("ab".data)].map (fun c =>
        sampleTokenizer.convert_tokens_to_string (sampleTokenizer.tokenize c)))) ∧
    split_text_into_smaller_chunks ("abc".data) dupTokenizer 2 1 =
      some (.error "Token count exceeds the maximum allowed length.") := by
  constructor
  · exact (split_text_overflow_behavior ("ab".data) sampleTokenizer 4 1 [("ab".data)]
      (by decide)).1 (by decide)
  · exact (split_text_overflow_behavior ("abc".data) dupTokenizer 2 1
      ["ab".data, "bc".data, "c".data] (by decide)).2 [] ("ab".data) ["bc".data, "c".data]
      rfl (by simp) (by decide)

/-- When no part produces a failure other than `AnswerNotFoundError`, the
generation loop collects the items of the successful parts in order,
skipping the `AnswerNotFoundError` parts. -/
theorem generate_qas_loop_ok (model : QGModel) :
    ∀ parts : List (List Char),
      (∀ p ∈ parts, isOtherFailure (model.generate_qa [p]) = false) →
      generate_qas_loop model parts = .ok (parts.flatMap (fun p =>
        match model.generate_qa [p] with
        | .ok qa_part => qa_part
        | .error _ => [])) := by
  intro parts
  induction parts with
  | nil => intro _; rfl
  | cons p rest ih =>
    intro hall
    have hp := hall p (by simp)
    simp only [generate_qas_loop, List.flatMap_cons]
    cases hgen : model.generate_qa [p] with
    | ok qa_part =>
      rw [ih (fun q hq => hall q (by simp [hq]))]
    | error e =>
      cases e with
      | answerNotFound m =>
        rw [ih (fun q hq => hall q (by simp [hq]))]
        simp
      | other m =>
        rw [hgen] at hp
        simp [isOtherFailure] at hp

/-- The generation loop aborts with the model's error at the first part
that raises anything other than `AnswerNotFoundError`. -/
theorem generate_qas_loop_error (model : QGModel) :
    ∀ (pre : List (List Char)) (p : List Char) (post : List (List Char)) (msg : String),
      (∀ q ∈ pre, isOtherFailure (model.generate_qa [q]) = false) →
      model.generate_qa [p] = .error (.other msg) →
      generate_qas_loop model (pre ++ p :: post) = .error (.genFailure msg) := by
  intro pre
  induction pre with
  | nil =>
    intro p post msg _ hp
    simp only [List.nil_append, generate_qas_loop]
    rw [hp]
  | cons q rest ih =>
    intro p post msg hall hp
    have hq := hall q (by simp)
    simp only [List.cons_append, generate_qas_loop, List.append_eq]
    cases hgen : model.generate_qa [q] with
    | ok qa_part =>
      rw [ih p post msg (fun r hr => hall r (by simp [hr])) hp]
    | error e =>
      cases e with
      | answerNotFound m =>
        exact ih p post msg (fun r hr => hall r (by simp [hr])) hp
      | other m =>
        rw [hgen] at hq
        simp [isOtherFailure] at hq

/-- C6: in the per-chunk loop of `generate_qas`, an `AnswerNotFoundError`
is caught per chunk — that chunk contributes nothing and processing
continues, keeping the pairs of all other chunks — while the first chunk
raising any other exception aborts processing with that error. -/
theorem generate_qas_error_handling (model : QGModel) (parts : List (List Char)) :
    ((∀ p ∈ parts, isOtherFailure (model.generate_qa [p]) = false) →
      generate_qas_loop model parts = .ok (parts.flatMap (fun p =>
        match model.generate_qa [p] with
        | .ok qa_part => qa_part
        | .error _ => []))) ∧
    (∀ (pre : List (List Char)) (p : List Char) (post : List (List Char)) (msg : String),
      parts = pre ++ p :: post →
      (∀ q ∈ pre, isOtherFailure (model.generate_qa [q]) = false) →
      model.generate_qa [p] = .error (.other msg) →
      generate_qas_loop model parts = .error (.genFailure msg)) := by
  constructor
  · exact generate_qas_loop_ok model parts
  · intro pre p post msg hsplit h1 hp
    rw [hsplit]
    exact generate_qas_loop_error model pre p post msg h1 hp

/-- C6 witness: the sample model skips the "skip" chunk but keeps the
pairs of "aa" and "bb"; a "boom" chunk aborts the run with its error. -/
theorem generate_qas_error_handling_witness :
    generate_qas_loop sampleModel ["aa".data, "skip".data, "bb".data] =
      .ok ((["aa".data, "skip".data, "bb".data]).flatMap (fun p =>
        match sampleModel.generate_qa [p] with
        | .ok qa_part => qa_part
        | .error _ => [])) ∧
    generate_qas_loop sampleModel ["aa".data, "boom".data] = .error (.genFailure "fail") := by
  constructor
  · exact (generate_qas_error_handling sampleModel ["aa".data, "skip".data, "bb".data]).1
      (by decide)
  · exact (generate_qas_error_handling sampleModel ["aa".data, "boom".data]).2
      ["aa".data] ("boom".data) [] "fail" rfl (by decide) rfl

/-- A successful `buildRecords` run returns exactly the records of the
well-formed 2-tuples, in order. -/
theorem buildRecords_ok (name : String) :
    ∀ (items : List PyVal) (recs : List QARecord),
      buildRecords name items = .ok recs → recs = items.filterMap (toRecord name) := by
  intro items
  induction items with
  | nil =>
    intro recs h
    obtain rfl := (Except.ok.inj h).symm
    rfl
  | cons v rest ih =>
    intro recs h
    rcases v with s | vs | vs
    · exact ih recs h
    · rcases vs with _ | ⟨x, vs⟩
      · exact ih recs h
      · rcases vs with _ | ⟨y, vs⟩
        · rcases x with qx | tx | lx <;> exact ih recs h
        · rcases vs with _ | ⟨z, vs⟩
          · rcases x with qx | tx | lx
            · rcases y with qy | ty | ly
              · cases hrest : buildRecords name rest with
                | error e =>
                  rw [show buildRecords name (PyVal.tup [PyVal.str qx, PyVal.str qy] :: rest) =
                    match buildRecords name rest with
                    | .error e => .error e
                    | .ok tail => .ok (⟨name, "Question: " ++ qx, "Answer: " ++ qy⟩ :: tail)
                    from rfl, hrest] at h
                  exact Except.noConfusion h
                | ok tail =>
                  rw [show buildRecords name (PyVal.tup [PyVal.str qx, PyVal.str qy] :: rest) =
                    match buildRecords name rest with
                    | .error e => .error e
                    | .ok tail => .ok (⟨name, "Question: " ++ qx, "Answer: " ++ qy⟩ :: tail)
                    from rfl, hrest] at h
                  obtain rfl := (Except.ok.inj h)
                  show (⟨name, "Question: " ++ qx, "Answer: " ++ qy⟩ : QARecord) ::
                    tail = _ :: List.filterMap (toRecord name) rest
                  rw [ih tail hrest]
              · exact Except.noConfusion h
              · exact Except.noConfusion h
            · exact Except.noConfusion h
            · exact Except.noConfusion h
          · rcases x with qx | tx | lx <;> rcases y with qy | ty | ly <;> exact ih recs h
    · exact ih recs h

/-- Every record `toRecord` produces carries the literal question and
answer prefixes. -/
theorem toRecord_shape (name : String) (v : PyVal) (r : QARecord)
    (h : toRecord name v = some r) :
    ∃ q a, r = ⟨name, "Question: " ++ q, "Answer: " ++ a⟩ := by
  rcases v with s | vs | vs
  · exact Option.noConfusion h
  · rcases vs with _ | ⟨x, vs⟩
    · exact Option.noConfusion h
    · rcases vs with _ | ⟨y, vs⟩
      · rcases x with qx | tx | lx <;> exact Option.noConfusion h
      · rcases vs with _ | ⟨z, vs⟩
        · rcases x with qx | tx | lx
          · rcases y with qy | ty | ly
            · exact ⟨qx, qy, (Option.some.inj h).symm⟩
            · exact Option.noConfusion h
            · exact Option.noConfusion h
          · exact Option.noConfusion h
          · exact Option.noConfusion h
        · rcases x with qx | tx | lx <;> rcases y with qy | ty | ly <;>
            exact Option.noConfusion h
  · exact Option.noConfusion h

/-- C5: the record list a successful `save_qas_to_json` call stores in the
output file consists exactly of the records of the well-formed 2-tuples
(malformed items contribute nothing), and every stored record carries a
non-empty question string and a non-empty answer string. -/
theorem save_qas_records_valid (qas : List PyVal) (output_file pdf_file_path : String)
    (fs g : String → Option (List QARecord)) (recs : List QARecord)
    (hsave : save_qas_to_json qas output_file pdf_file_path fs = .ok g)
    (hout : g output_file = some recs) :
    recs = (qas.flatMap pyIter).filterMap (toRecord (pdf_file_name pdf_file_path)) ∧
    (∀ r ∈ recs, r.Question ≠ "" ∧ r.Answer ≠ "") := by
  unfold save_qas_to_json at hsave
  cases hmod : modified_qas (pdf_file_name pdf_file_path) qas with
  | error e =>
    rw [hmod] at hsave
    exact Except.noConfusion hsave
  | ok recs0 =>
    rw [hmod] at hsave
    obtain rfl := (Except.ok.inj hsave)
    simp only [if_pos rfl] at hout
    obtain rfl := (Option.some.inj hout)
    have hchar := buildRecords_ok (pdf_file_name pdf_file_path) (qas.flatMap pyIter) recs0 hmod
    refine ⟨hchar, ?_⟩
    intro r hr
    rw [hchar] at hr
    obtain ⟨v, _, htv⟩ := List.mem_filterMap.mp hr
    obtain ⟨q, a, rfl⟩ := toRecord_shape _ v r htv
    constructor
    · intro hq
      have hlen := congrArg String.length hq
      rw [String.length_append, show ("Question: ").length = 10 from rfl,
        show ("" : String).length = 0 from rfl] at hlen
      omega
    · intro ha
      have hlen := congrArg String.length ha
      rw [String.length_append, show ("Answer: ").length = 8 from rfl,
        show ("" : String).length = 0 from rfl] at hlen
      omega

/-- C5 witness: one well-formed pair and one malformed string item; only
the pair is stored, with non-empty fields. -/
theorem save_qas_records_valid_witness :
    ([⟨"doc1", "Question: Q1", "Answer: A1"⟩] : List QARecord) =
      (([PyVal.lst [PyVal.tup [PyVal.str "Q1", PyVal.str "A1"],
        PyVal.str "junk"]]).flatMap pyIter).filterMap
        (toRecord (pdf_file_name "C:/docs/doc1.pdf")) ∧
    (∀ r ∈ ([⟨"doc1", "Question: Q1", "Answer: A1"⟩] : List QARecord),
      r.Question ≠ "" ∧ r.Answer ≠ "") :=
  save_qas_records_valid
    [PyVal.lst [PyVal.tup [PyVal.str "Q1", PyVal.str "A1"], PyVal.str "junk"]]
    "qa_dataset.json" "C:/docs/doc1.pdf" (fun _ => none)
    (fun f => if f = "qa_dataset.json" then
      some [⟨"doc1", "Question: Q1", "Answer: A1"⟩] else none)
    [⟨"doc1", "Question: Q1", "Answer: A1"⟩] rfl rfl

/-- Everything after the last separator is unaffected by what comes
before it. -/
theorem afterLastSep_append (pre rest : List Char) :
    afterLastSep (pre ++ '/' :: rest) = afterLastSep rest := by
  unfold afterLastSep
  rw [List.foldl_append]
  simp

/-- The reference name computed for any path `<dir>/doc1.pdf`. -/
theorem pdf_file_name_slash (dir : String) :
    pdf_file_name (dir ++ "/doc1.pdf") = "doc1" := by
  unfold pdf_file_name
  have hdata : (dir ++ "/doc1.pdf").data = dir.data ++ '/' :: ("doc1.pdf").data := by
    cases dir
    rfl
  rw [hdata, afterLastSep_append]
  decide

/-- C1 (amended: the pairs arrive wrapped in the model's per-call item
list, i.e. `qas = [[("Q1","A1"), ("Q2","A2")]]` as `generate_qas`
produces them): `save_qas_to_json` with a path `<dir>/doc1.pdf` stores
exactly the two expected records. -/
theorem save_qas_doc1_records (dir : String) (fs : String → Option (List QARecord)) :
    save_qas_to_json
        [PyVal.lst [PyVal.tup [PyVal.str "Q1", PyVal.str "A1"],
                    PyVal.tup [PyVal.str "Q2", PyVal.str "A2"]]]
        "qa_dataset.json" (dir ++ "/doc1.pdf") fs =
      .ok (fun f => if f = "qa_dataset.json" then
        some [⟨"doc1", "Question: Q1", "Answer: A1"⟩, ⟨"doc1", "Question: Q2", "Answer: A2"⟩]
        else fs f) := by
  unfold save_qas_to_json modified_qas
  rw [pdf_file_name_slash dir]
  rfl

/-- C1 counterexample: handing the flat pair list itself to the writer
makes its inner loop iterate over the tuples' string components, which
are not 2-tuples, so every item is skipped and the stored record list is
empty rather than the two expected records. -/
theorem save_qas_doc1_counterexample :
    modified_qas (pdf_file_name "C:/docs/doc1.pdf")
      [PyVal.tup [PyVal.str "Q1", PyVal.str "A1"],
       PyVal.tup [PyVal.str "Q2", PyVal.str "A2"]] = .ok [] ∧
    (Except.ok ([] : List QARecord) : Except String (List QARecord)) ≠
      .ok [⟨"doc1", "Question: Q1", "Answer: A1"⟩, ⟨"doc1", "Question: Q2", "Answer: A2"⟩] :=
  ⟨rfl, fun h => by simpa using Except.ok.inj h⟩

/-- Running the writer over some documents and then a last one ends with
the output file holding exactly the last document's records. -/
theorem run_writer_last (output_file : String) :
    ∀ (docs : List (List PyVal × String)) (lastQas : List PyVal) (lastPath : String)
      (fs0 : String → Option (List QARecord)) (recs : List QARecord),
      (∀ d ∈ docs, ∃ r, modified_qas (pdf_file_name d.2) d.1 = .ok r) →
      modified_qas (pdf_file_name lastPath) lastQas = .ok recs →
      ∃ g, run_writer (docs ++ [(lastQas, lastPath)]) output_file fs0 = .ok g ∧
        g output_file = some recs := by
  intro docs
  induction docs with
  | nil =>
    intro lastQas lastPath fs0 recs _ hlast
    refine ⟨fun f => if f = output_file then some recs else fs0 f, ?_, by simp⟩
    show run_writer [(lastQas, lastPath)] output_file fs0 = _
    simp only [run_writer, save_qas_to_json]
    rw [hlast]
  | cons d rest ih =>
    intro lastQas lastPath fs0 recs hall hlast
    obtain ⟨qs, ph⟩ := d
    obtain ⟨r0, hr0⟩ := hall (qs, ph) (by simp)
    simp only at hr0
    simp only [List.cons_append, run_writer, save_qas_to_json]
    rw [hr0]
    exact ih lastQas lastPath (fun f => if f = output_file then some r0 else fs0 f) recs
      (fun e he => hall e (by simp [he])) hlast

/-- C2: a successful `save_qas_to_json` call rewrites the output file to
hold exactly the records of its own `qas` argument, whatever the file
held before; consequently, when the writer runs once per document against
the same output file, only the last document's records persist. -/
theorem save_qas_overwrite_last_wins (output_file : String)
    (docs : List (List PyVal × String)) (lastQas : List PyVal) (lastPath : String)
    (fs0 : String → Option (List QARecord)) (recs : List QARecord)
    (hdocs : ∀ d ∈ docs, ∃ r, modified_qas (pdf_file_name d.2) d.1 = .ok r)
    (hlast : modified_qas (pdf_file_name lastPath) lastQas = .ok recs) :
    (∀ fs : String → Option (List QARecord),
      save_qas_to_json lastQas output_file lastPath fs =
        .ok (fun f => if f = output_file then some recs else fs f)) ∧
    (∃ g, run_writer (docs ++ [(lastQas, lastPath)]) output_file fs0 = .ok g ∧
      g output_file = some recs) := by
  constructor
  · intro fs
    unfold save_qas_to_json
    rw [hlast]
  · exact run_writer_last output_file docs lastQas lastPath fs0 recs hdocs hlast

/-- C2 witness: two documents written in order to `qa_dataset.json`; the
final file holds only the second document's record, and the single-call
result does not depend on the prior file state. -/
theorem save_qas_overwrite_last_wins_witness :
    (∀ fs : String → Option (List QARecord),
      save_qas_to_json [PyVal.lst [PyVal.tup [PyVal.str "Q2", PyVal.str "A2"]]]
        "qa_dataset.json" "b.pdf" fs =
        .ok (fun f => if f = "qa_dataset.json" then
          some [⟨"b", "Question: Q2", "Answer: A2"⟩] else fs f)) ∧
    (∃ g, run_writer
        [([PyVal.lst [PyVal.tup [PyVal.str "Q1", PyVal.str "A1"]]], "a.pdf"),
         ([PyVal.lst [PyVal.tup [PyVal.str "Q2", PyVal.str "A2"]]], "b.pdf")]
        "qa_dataset.json" (fun _ => none) = .ok g ∧
      g "qa_dataset.json" = some [⟨"b", "Question: Q2", "Answer: A2"⟩]) :=
  save_qas_overwrite_last_wins "qa_dataset.json"
    [([PyVal.lst [PyVal.tup [PyVal.str "Q1", PyVal.str "A1"]]], "a.pdf")]
    [PyVal.lst [PyVal.tup [PyVal.str "Q2", PyVal.str "A2"]]] "b.pdf" (fun _ => none)
    [⟨"b", "Question: Q2", "Answer: A2"⟩]
    (by
      intro d hd
      simp only [List.mem_singleton] at hd
      subst hd
      exact ⟨[⟨"a", "Question: Q1", "Answer: A1"⟩], rfl⟩)
    rfl

/-- Closed form of the extractor loop for any running count. -/
theorem extract_go_eq (max_files : Nat) :
    ∀ (dir : List (String × List String)) (file_count : Nat),
      extract_go max_files dir file_count =
        ((if max_files = 0 then dir.filter (fun e => endswith e.1 ".pdf")
          else (dir.filter (fun e => endswith e.1 ".pdf")).take (max_files - file_count)).flatMap
          (fun e => [String.join e.2, "\n\n"])) := by
  intro dir
  induction dir with
  | nil =>
    intro c
    simp [extract_go]
  | cons e rest ih =>
    intro c
    obtain ⟨filename, pages⟩ := e
    by_cases hpdf : endswith filename ".pdf" = true
    · by_cases h0 : max_files = 0
      · subst h0
        simp only [extract_go, if_pos hpdf, List.filter_cons]
        rw [if_neg (by simp)]
        rw [ih (c + 1)]
        simp [hpdf]
      · by_cases hcap : max_files ≤ c
        · simp only [extract_go, if_pos hpdf]
          rw [if_pos ⟨h0, hcap⟩, if_neg h0]
          simp only [List.filter_cons, if_pos hpdf]
          rw [show max_files - c = 0 from by omega]
          simp
        · simp only [extract_go, if_pos hpdf]
          rw [if_neg (fun hand => hcap hand.2)]
          rw [ih (c + 1), if_neg h0, if_neg h0]
          simp only [List.filter_cons, if_pos hpdf]
          rw [show max_files - c = (max_files - (c + 1)) + 1 from by omega]
          simp
    · simp only [extract_go, if_neg hpdf, List.filter_cons]
      rw [ih c]

/-- C4 (amended): `extract_text_from_pdfs` returns TWO list entries per
PDF processed — the concatenation of that file's page texts with no
separator between pages, followed by a separate `"\n\n"` entry — for the
`.pdf` entries in listing order, capped at `max_files` unless
`max_files = 0`, with non-PDF entries ignored. -/
theorem extract_text_from_pdfs_spec (dir : List (String × List String)) (max_files : Nat) :
    extract_text_from_pdfs dir max_files =
      ((if max_files = 0 then dir.filter (fun e => endswith e.1 ".pdf")
        else (dir.filter (fun e => endswith e.1 ".pdf")).take max_files).flatMap
        (fun e => [String.join e.2, "\n\n"])) := by
  unfold extract_text_from_pdfs
  rw [extract_go_eq max_files dir 0]
  simp

/-- C4 counterexample: a folder with one two-page PDF produces the page
concatenation followed by a separator entry — two entries, not exactly
one text blob per PDF file found. -/
theorem extract_text_counterexample :
    extract_text_from_pdfs [("a.pdf", ["p1", "p2"])] 0 = ["p1p2", "\n\n"] ∧
    extract_text_from_pdfs [("a.pdf", ["p1", "p2"])] 0 ≠ ["p1p2"] := by
  exact ⟨by decide, by decide⟩

end GenerateQA
